import Mathlib

/-!
Shallow embedding of the "Archives URL Fetcher" Burp extension
(`archive.py`).  Python strings are modelled as Lean `String`s; the
Python string primitives used by the program (`lower`, `endswith`,
`startswith`, `strip`, `int(...)`, `urllib.quote`, `str.format` with
left-justified fields) are modelled as functions over the underlying
character lists.  The threaded worker pool (`_url_checker` plus the
queue / join machinery of `_fetch_and_check_urls`) is modelled as a
small-step transition system whose schedules (interleavings and the
moment the stop flag is set) are chosen by the environment.
-/

namespace Archive

/-- Model of Python `str.lower()`: lowercase every character. -/
def pyLower (s : String) : String :=
  String.mk (s.data.map Char.toLower)

/-- Model of Python `str.endswith(suffix)` for a single suffix. -/
def pyEndswith (s suf : String) : Bool :=
  List.isSuffixOf suf.data s.data

/-- Model of Python `str.startswith(pre)` for a single argument. -/
def pyStartswith (s pre : String) : Bool :=
  List.isPrefixOf pre.data s.data

/-- Model of Python `str.strip()`: drop whitespace from both ends. -/
def pyStrip (s : String) : String :=
  String.mk (((s.data.dropWhile Char.isWhitespace).reverse.dropWhile Char.isWhitespace).reverse)

/-- Value of a list of decimal digit characters. -/
def digitsVal (ds : List Char) : Nat :=
  ds.foldl (fun acc c => acc * 10 + (c.toNat - 48)) 0

/-- Parse a non-empty all-digit character list, as used by Python `int`. -/
def parseDigits (ds : List Char) : Option Nat :=
  if ds ≠ [] ∧ ds.all Char.isDigit then some (digitsVal ds) else none

/-- Model of Python 2 `int(s)` on an already stripped string: an optional
sign followed by one or more decimal digits; anything else raises
`ValueError`, modelled as `none`. -/
def pyParseInt (s : String) : Option Int :=
  match s.data with
  | [] => none
  | c :: rest =>
    if c = '-' then (parseDigits rest).map (fun n => -(n : Int))
    else if c = '+' then (parseDigits rest).map (fun n => (n : Int))
    else (parseDigits (c :: rest)).map (fun n => (n : Int))

/-- Hexadecimal digit character (uppercase), for percent-encoding. -/
def hexDigit (n : Nat) : Char :=
  if n < 10 then Char.ofNat (48 + n) else Char.ofNat (55 + n)

/-- Model of Python 2 `urllib.quote` applied to one character: ASCII
letters, digits, and the characters `_`, `.`, `-` are always safe, `/`
is safe by default; everything else is percent-encoded. -/
def quoteChar (c : Char) : String :=
  if c.isAlphanum ∨ c = '_' ∨ c = '.' ∨ c = '-' ∨ c = '/' then String.singleton c
  else String.mk ['%', hexDigit (c.toNat / 16 % 16), hexDigit (c.toNat % 16)]

/-- Model of Python 2 `urllib.quote(s)`. -/
def pyQuote (s : String) : String :=
  String.join (s.data.map quoteChar)

/-- Model of Python `"..".ljust`-style left-justified format field
`\x7b:<w\x7d`: pad with spaces on the right up to width `w`. -/
def ljust (s : String) (w : Nat) : String :=
  s ++ String.mk (List.replicate (w - s.data.length) ' ')

/- ------------------------------------------------------------------ -/
/- URL Source Filter (archive.py lines 272-275)                        -/
/- ------------------------------------------------------------------ -/

/-- Denylist of static-asset extensions (archive.py line 272). -/
def excluded_extensions : List String :=
  [".eot", ".svg", ".woff", ".woff2", ".css", ".ttf", ".png", ".jpg", ".jpeg", ".gif"]

/-- Embedding of the list comprehension at archive.py lines 273-275:
keep `url` when no denylisted extension is a suffix of its lowercase form. -/
def filterUrls (lines : List String) : List String :=
  lines.filter (fun url => !(excluded_extensions.any (fun ext => pyEndswith (pyLower url) ext)))

/-- Predicate written from the spec text for the URL Source Filter: an
element is retained exactly when its lowercased form does not end with
any denylisted suffix.  Used to compare `filterUrls` against the
specification wording. -/
def specKeep (url : String) : Prop :=
  ∀ ext ∈ excluded_extensions, ¬ pyEndswith (pyLower url) ext = true

instance (url : String) : Decidable (specKeep url) := by
  unfold specKeep
  infer_instance

/- ------------------------------------------------------------------ -/
/- Probe Task (archive.py lines 186-215)                               -/
/- ------------------------------------------------------------------ -/

/-- Environment behaviour of one HTTP probe: either a response with a
status code and declared content length, or a thrown transport
exception with a message. -/
inductive ProbeResponse where
  | ok (status : Int) (size : Int)
  | err (msg : String)
deriving DecidableEq, Repr

/-- One enqueued URL together with the response the network environment
would give for it. -/
structure Target where
  url : String
  resp : ProbeResponse
deriving DecidableEq, Repr

/-- One element of the shared `results` list: the `(status, size, text)`
tuple appended by `_url_checker` (text is the URL, or the formatted
error line when `status = -1`). -/
structure Outcome where
  status : Int
  size : Int
  text : String
deriving DecidableEq, Repr

/-- Embedding of archive.py lines 191-192: prepend a scheme when the URL
does not start with `http://` or `https://`. -/
def normalizeUrl (u : String) : String :=
  if pyStartswith u "http://" || pyStartswith u "https://" then u else "http://" ++ u

/-- Embedding of the body of `_url_checker` for one dequeued URL
(archive.py lines 190-208): the outcome appended to `results`, or
`none` when the status code is 400 or 404 (discarded). -/
def probeOutcome (t : Target) : Option Outcome :=
  match t.resp with
  | .ok status size =>
    if status = 400 ∨ status = 404 then none
    else some ⟨status, size, normalizeUrl t.url⟩
  | .err msg =>
    some ⟨-1, -1, "[!] Error on " ++ normalizeUrl t.url ++ ": " ++ msg⟩

/- ------------------------------------------------------------------ -/
/- Worker Pool (archive.py lines 186-215 and 283-295)                  -/
/- ------------------------------------------------------------------ -/

/-- Status of one worker thread: in its loop about to test the loop
condition, holding a dequeued target with the probe in flight, or
returned from `_url_checker`. -/
inductive WStatus where
  | idle
  | busy (t : Target)
  | exited
deriving DecidableEq, Repr

/-- Shared state of one run of the pool: the work queue, the stop
event, the `results` list, the `_checked_count` counter and the
queue's task-done count (`Queue.task_done` calls, which is what
`q.join()` waits on), plus the per-worker statuses. -/
structure PoolState where
  queue : List Target
  stopped : Bool
  results : List Outcome
  checked : Nat
  taskDone : Nat
  workers : List WStatus
deriving DecidableEq, Repr

/-- Scheduler events: worker `i` passes the loop condition and dequeues,
worker `i` finishes its in-flight probe (append / count / task_done),
worker `i` observes the loop condition false and exits, or the user
presses Stop (sets the event). -/
inductive Evt where
  | dequeue (i : Nat)
  | finish (i : Nat)
  | exit (i : Nat)
  | setStop
deriving DecidableEq, Repr

/-- One scheduler step of the pool.  `none` means the event is not
enabled in this state.  The loop condition of `_url_checker` (line 188)
is `not q.empty() and not stop`: a dequeue needs a non-empty queue and a
clear stop flag; an exit needs the condition false. -/
def stepPool (s : PoolState) : Evt → Option PoolState
  | .setStop => some { s with stopped := true }
  | .dequeue i =>
    match s.workers.get? i with
    | some .idle =>
      match s.queue with
      | [] => none
      | t :: rest =>
        if s.stopped then none
        else some { s with queue := rest, workers := s.workers.set i (.busy t) }
    | _ => none
  | .finish i =>
    match s.workers.get? i with
    | some (.busy t) =>
      some { s with
        results := s.results ++ (probeOutcome t).toList,
        checked := s.checked + 1,
        taskDone := s.taskDone + 1,
        workers := s.workers.set i .idle }
    | _ => none
  | .exit i =>
    match s.workers.get? i with
    | some .idle =>
      if s.queue.isEmpty || s.stopped then some { s with workers := s.workers.set i .exited }
      else none
    | _ => none

/-- Run a list of scheduler events; `none` when some event is not
enabled where it occurs (an invalid schedule). -/
def runEvents (s : PoolState) : List Evt → Option PoolState
  | [] => some s
  | e :: es =>
    match stepPool s e with
    | some s2 => runEvents s2 es
    | none => none

/-- Initial pool state (archive.py lines 283-293): the filtered URLs are
enqueued, the stop event was cleared by the button handler, counters are
zero, and `thread_count` workers are started in their loops. -/
def initPool (targets : List Target) (threadCount : Nat) : PoolState :=
  ⟨targets, false, [], 0, 0, List.replicate threadCount .idle⟩

/-- Targets currently held by busy workers. -/
def busyOf : WStatus → Option Target
  | .busy t => some t
  | _ => none

/-- List of in-flight targets of a worker list. -/
def busyTargets (ws : List WStatus) : List Target :=
  ws.filterMap busyOf

/-- Model of `q.join()` (archive.py line 295): it returns exactly when
the number of `task_done` calls equals the number of `put` calls. -/
def joinReturns (s : PoolState) (total : Nat) : Prop :=
  s.taskDone = total

/- ------------------------------------------------------------------ -/
/- Report Builder (archive.py lines 297-312)                           -/
/- ------------------------------------------------------------------ -/

/-- Comparator of `sorted(results, key=lambda item: item[1], reverse=True)`
(archive.py line 297): `a` may come before `b` when its size is at
least as large. -/
def sizeGE (a b : Outcome) : Prop :=
  b.size ≤ a.size

instance : DecidableRel sizeGE :=
  fun a b => Int.decLe b.size a.size

instance : IsTotal Outcome sizeGE :=
  ⟨fun a b => Int.le_total b.size a.size⟩

instance : IsTrans Outcome sizeGE :=
  ⟨fun _ _ _ h1 h2 => le_trans h2 h1⟩

/-- Embedding of `sorted(results, key=lambda item: item[1], reverse=True)`
(archive.py line 297).  Python's `sorted` is a stable sort, and a stable
sort for a given total preorder is unique, so it is embedded as a stable
insertion sort, descending on the size field. -/
def sortResults (results : List Outcome) : List Outcome :=
  List.insertionSort sizeGE results

/-- Model of the row format string of archive.py lines 299-300 and 311:
three fields, the first left-justified to width 8, the second to width
15, followed by a newline. -/
def fmtRow (a b c : String) : String :=
  ljust a 8 ++ " " ++ ljust b 15 ++ " " ++ c ++ "\n"

/-- Header line (archive.py line 299). -/
def headersLine : String :=
  fmtRow "Status" "Response Size" "URL"

/-- Separator line (archive.py line 300). -/
def separatorLine : String :=
  fmtRow "------" "-------------" "---"

/-- Embedding of the per-result rendering (archive.py lines 304-312):
an error outcome is printed as its raw text on its own line, any other
outcome as a three-column row with `N/A` for an unknown size. -/
def renderLine (o : Outcome) : String :=
  if o.status = -1 then o.text ++ "\n"
  else fmtRow (toString o.status) (if o.size ≠ -1 then toString o.size else "N/A") o.text

/-- Embedding of the whole table appended to the output area
(archive.py lines 297-312). -/
def renderReport (results : List Outcome) : String :=
  headersLine ++ separatorLine ++ String.join ((sortResults results).map renderLine)

/- ------------------------------------------------------------------ -/
/- Top-level control flow of `_fetch_and_check_urls` (lines 217-332)   -/
/- ------------------------------------------------------------------ -/

/-- Behaviour of the archive-index query (the single collaborator HTTP
GET at archive.py lines 252-263): the list of lines read, or a thrown
exception with a message. -/
inductive FetchResult where
  | ok (lines : List String)
  | exn (msg : String)
deriving DecidableEq, Repr

/-- Inputs of one run: the two text fields, the thread dropdown, and
the behaviour of the network environment (the archive-index query and
the response each probed URL would get). -/
structure RunEnv where
  domainText : String
  limitText : String
  threadCount : Nat
  fetch : FetchResult
  respond : String → ProbeResponse

/-- Result of one run of `_fetch_and_check_urls`.  `validationError`
and `emptyListError` set the label `Status: Error`; `fetchErrorCase`
(the `except` block at lines 323-328) sets `Status: Fetch Error`;
`finished` sets `Status: Stopped` or `Status: Complete` according to
the stop flag; `blockedAtJoin` means `q.join()` never returned, so no
terminal status is ever set. -/
inductive RunResult where
  | validationError (msg : String)
  | fetchErrorCase (msg : String)
  | emptyListError
  | blockedAtJoin (s : PoolState)
  | finished (stoppedFlag : Bool) (table : String)
deriving DecidableEq, Repr

/-- Observable output of one run: the archive-index URL actually
requested (when the query was reached), the number of worker threads
started, and the run result. -/
structure RunOutput where
  queried : Option String
  workersStarted : Nat
  result : RunResult
deriving DecidableEq, Repr

/-- Embedding of the query-URL construction at archive.py lines 244-248. -/
def buildTargetUrl (domain : String) (limit : Int) : String :=
  "http://web.archive.org/cdx/search/cdx?url=" ++ pyQuote domain
    ++ "&matchType=domain&limit=" ++ toString limit ++ "&fl=original&collapse=urlkey"

/-- Validation message for an empty domain (archive.py line 229). -/
def domainErrMsg : String := "Error: Please enter a domain name."

/-- Validation message for a bad limit (archive.py line 236). -/
def limitErrMsg : String := "Error: Invalid limit. Please enter a number."

/-- Embedding of the control flow of `_fetch_and_check_urls`
(archive.py lines 217-332), parameterised by the pool schedule `sched`.
`none` means the schedule was not a valid interleaving. -/
def fetchAndCheck (env : RunEnv) (sched : List Evt) : Option RunOutput :=
  let domain := pyStrip env.domainText
  if domain = "" then some ⟨none, 0, .validationError domainErrMsg⟩
  else
    match pyParseInt (pyStrip env.limitText) with
    | none => some ⟨none, 0, .validationError limitErrMsg⟩
    | some limit =>
      let target_url := buildTargetUrl domain limit
      match env.fetch with
      | .exn _msg => some ⟨some target_url, 0, .fetchErrorCase _msg⟩
      | .ok lines =>
        if lines = [] then some ⟨some target_url, 0, .emptyListError⟩
        else
          let filtered := filterUrls lines
          let targets := filtered.map (fun u => Target.mk u (env.respond u))
          match runEvents (initPool targets env.threadCount) sched with
          | none => none
          | some s =>
            if s.taskDone = targets.length then
              some ⟨some target_url, env.threadCount, .finished s.stopped (renderReport s.results)⟩
            else
              some ⟨some target_url, env.threadCount, .blockedAtJoin s⟩

/-- Terminal status label written to the status label for a run result
(the `Status: ...` strings of archive.py lines 230, 237, 267, 316, 319,
328); `none` when the run never reaches a terminal status. -/
def statusOf (out : RunOutput) : Option String :=
  match out.result with
  | .validationError _ => some "Status: Error"
  | .fetchErrorCase _ => some "Status: Fetch Error"
  | .emptyListError => some "Status: Error"
  | .blockedAtJoin _ => none
  | .finished true _ => some "Status: Stopped"
  | .finished false _ => some "Status: Complete"

end Archive

namespace Archive

/- ------------------------------------------------------------------ -/
/- Claim C3: URL Source Filter                                         -/
/- ------------------------------------------------------------------ -/

/-- C3: `filterUrls` returns exactly the subsequence of its input whose
lowercased form does not end with any denylisted suffix: it equals the
filter by the spec-side keep predicate, it is a sublist of the input
(hence order-preserving), no retained element's lowercase form ends
with a denylisted suffix, and the empty list maps to the empty list.
Purity and determinism hold because `filterUrls` is a total Lean
function of its input alone. -/
theorem C3_url_filter (L : List String) :
    filterUrls L = L.filter (fun u => decide (specKeep u)) ∧
    (filterUrls L).Sublist L ∧
    (∀ u, u ∈ filterUrls L → ∀ ext ∈ excluded_extensions, pyEndswith (pyLower u) ext = false) ∧
    filterUrls ([] : List String) = [] := by
  refine ⟨List.filter_congr (fun u _ => ?_), List.filter_sublist L, ?_, rfl⟩
  · rcases h : excluded_extensions.any (fun ext => pyEndswith (pyLower u) ext) with _ | _
    · rw [List.any_eq_false] at h
      rw [Bool.not_false, eq_comm, decide_eq_true_iff]
      exact h
    · rw [List.any_eq_true] at h
      obtain ⟨ext, hext, hend⟩ := h
      rw [Bool.not_true, eq_comm, decide_eq_false_iff_not]
      intro hkeep
      exact hkeep ext hext hend
  · intro u hu ext hext
    rw [filterUrls, List.mem_filter] at hu
    have h2 := hu.2
    rw [Bool.not_eq_true', List.any_eq_false] at h2
    have := h2 ext hext
    simpa using this

/-- C3 witness: on a concrete input list, the filter keeps the plain
URL and drops the `.png` one. -/
theorem C3_url_filter_witness :
    "b" ∈ filterUrls ["a.PNG", "b"] ∧ pyEndswith (pyLower "b") ".png" = false :=
  ⟨by decide, (C3_url_filter ["a.PNG", "b"]).2.2.1 "b" (by decide) ".png" (by decide)⟩

/- ------------------------------------------------------------------ -/
/- Claim C8: scheme normalization                                      -/
/- ------------------------------------------------------------------ -/

/-- Predicate written from the claim wording (not from the source): the
URL string "already has a scheme", read per RFC 3986 as a nonempty
alpha-initial run of alphanumeric, plus, minus or dot characters
followed by a colon. -/
def specHasScheme (s : String) : Bool :=
  let pre := s.data.takeWhile (fun c => c ≠ ':')
  (!pre.isEmpty) && decide (pre.length < s.data.length) &&
    (pre.headD ' ').isAlpha && pre.all (fun c => c.isAlphanum || c = '+' || c = '-' || c = '.')

/-- A URL starting with `http://` has a scheme. -/
theorem http_start_has_scheme (u : String) (h : pyStartswith u "http://" = true) :
    specHasScheme u = true := by
  rw [pyStartswith, List.isPrefixOf_iff_prefix] at h
  obtain ⟨r, hr⟩ := h
  have hd : "http://".data = ['h', 't', 't', 'p', ':', '/', '/'] := rfl
  rw [specHasScheme, ← hr, hd]
  simp +decide [List.takeWhile_cons]

/-- A URL starting with `https://` has a scheme. -/
theorem https_start_has_scheme (u : String) (h : pyStartswith u "https://" = true) :
    specHasScheme u = true := by
  rw [pyStartswith, List.isPrefixOf_iff_prefix] at h
  obtain ⟨r, hr⟩ := h
  have hd : "https://".data = ['h', 't', 't', 'p', 's', ':', '/', '/'] := rfl
  rw [specHasScheme, ← hr, hd]
  simp +decide [List.takeWhile_cons]

/-- C8 counterexample: `ftp://example.com` already has a scheme, yet the
code prepends `http://`, so it is not probed unchanged. -/
theorem C8_counterexample :
    specHasScheme "ftp://example.com" = true ∧
    normalizeUrl "ftp://example.com" = "http://ftp://example.com" ∧
    normalizeUrl "ftp://example.com" ≠ "ftp://example.com" := by
  refine ⟨by decide, by decide, by decide⟩

/-- C8 amended: a URL with no scheme gets `http://` prepended, and a URL
starting with `http://` or `https://` is probed unchanged; URLs with any
other scheme also get `http://` prepended (the code tests only for the
two literal schemes, archive.py lines 191-192). -/
theorem C8_scheme_normalization (u : String) :
    (specHasScheme u = false → normalizeUrl u = "http://" ++ u) ∧
    (pyStartswith u "http://" = true ∨ pyStartswith u "https://" = true → normalizeUrl u = u) ∧
    ((pyStartswith u "http://" || pyStartswith u "https://") = false →
      normalizeUrl u = "http://" ++ u) := by
  refine ⟨?_, ?_, ?_⟩
  · intro hns
    rw [normalizeUrl, if_neg]
    intro hb
    rcases Bool.or_eq_true _ _ |>.mp hb with h1 | h2
    · rw [http_start_has_scheme u h1] at hns
      cases hns
    · rw [https_start_has_scheme u h2] at hns
      cases hns
  · intro h
    rw [normalizeUrl, if_pos]
    rcases h with h | h
    · simp [h]
    · simp [h]
  · intro h
    rw [normalizeUrl, if_neg]
    simp [h]

/-- C8 witness: concrete instances of both branches of the amended
normalization claim. -/
theorem C8_scheme_normalization_witness :
    normalizeUrl "example.com/x" = "http://example.com/x" ∧
    normalizeUrl "https://example.com/x" = "https://example.com/x" :=
  ⟨(C8_scheme_normalization "example.com/x").1 (by decide),
   (C8_scheme_normalization "https://example.com/x").2.1 (Or.inr (by decide))⟩

end Archive

namespace Archive

/- ------------------------------------------------------------------ -/
/- Claim C4: probe outcome classification                              -/
/- ------------------------------------------------------------------ -/

/-- One string's character data occurs inside another's. -/
def containsStr (big small : String) : Prop :=
  ∃ a b, big.data = a ++ small.data ++ b

/-- C4: a 400 or 404 response yields no outcome; any other status yields
an outcome carrying that status and the declared content length; a
transport failure yields an outcome with status -1, size -1 and an
error text containing the URL and the failure message; and a worker
holding any probe result always has its finish step enabled (the
failure is data, it never aborts the pool or the run). -/
theorem C4_probe_outcomes :
    (∀ u size, probeOutcome ⟨u, .ok 400 size⟩ = none ∧ probeOutcome ⟨u, .ok 404 size⟩ = none) ∧
    (∀ u status size, status ≠ 400 → status ≠ 404 →
      probeOutcome ⟨u, .ok status size⟩ = some ⟨status, size, normalizeUrl u⟩) ∧
    (∀ u msg, ∃ o, probeOutcome ⟨u, .err msg⟩ = some o ∧ o.status = -1 ∧ o.size = -1 ∧
      containsStr o.text u ∧ containsStr o.text msg) ∧
    (∀ (s : PoolState) (i : Nat) (t : Target), s.workers.get? i = some (.busy t) →
      ∃ s2, stepPool s (.finish i) = some s2 ∧ s2.checked = s.checked + 1 ∧
        s2.taskDone = s.taskDone + 1 ∧
        s2.results = s.results ++ (probeOutcome t).toList ∧
        s2.workers = s.workers.set i .idle) := by
  refine ⟨?_, ?_, ?_, ?_⟩
  · intro u size
    constructor
    · rw [probeOutcome]
      simp
    · rw [probeOutcome]
      simp
  · intro u status size h4 h44
    rw [probeOutcome]
    simp [h4, h44]
  · intro u msg
    refine ⟨_, rfl, rfl, rfl, ?_, ?_⟩
    · rw [normalizeUrl]
      rcases h : (pyStartswith u "http://" || pyStartswith u "https://") with _ | _
      · refine ⟨("[!] Error on " ++ "http://").data, (": " ++ msg).data, ?_⟩
        simp [h, String.data_append, List.append_assoc]
      · refine ⟨("[!] Error on ").data, (": " ++ msg).data, ?_⟩
        simp [h, String.data_append, List.append_assoc]
    · refine ⟨("[!] Error on " ++ normalizeUrl u ++ ": ").data, [], ?_⟩
      simp [String.data_append, List.append_assoc]
  · intro s i t hw
    refine ⟨{ s with
        results := s.results ++ (probeOutcome t).toList,
        checked := s.checked + 1,
        taskDone := s.taskDone + 1,
        workers := s.workers.set i .idle }, ?_, rfl, rfl, rfl, rfl⟩
    simp only [stepPool, hw]

/-- C4 witness: concrete instances of the discard, success and
transport-failure classifications. -/
theorem C4_probe_outcomes_witness :
    probeOutcome ⟨"a", .ok 404 7⟩ = none ∧
    probeOutcome ⟨"a", .ok 500 7⟩ = some ⟨500, 7, "http://a"⟩ ∧
    ∃ o, probeOutcome ⟨"a", .err "timed out"⟩ = some o ∧ o.status = -1 ∧ o.size = -1 ∧
      containsStr o.text "a" ∧ containsStr o.text "timed out" :=
  ⟨(C4_probe_outcomes.1 "a" 7).2,
   by
    have h := C4_probe_outcomes.2.1 "a" 500 7 (by decide) (by decide)
    rw [h]
    rfl,
   C4_probe_outcomes.2.2.1 "a" "timed out"⟩

end Archive

namespace Archive

/- ------------------------------------------------------------------ -/
/- Claim C5: Report Builder                                            -/
/- ------------------------------------------------------------------ -/

/-- Output of `sortResults` is pairwise descending on the size field. -/
theorem sortResults_pairwise (results : List Outcome) :
    (sortResults results).Pairwise (fun a b => b.size ≤ a.size) :=
  List.sorted_insertionSort sizeGE results

/-- C5: the rendered report sorts outcomes descending by size (with the
`-1` sizes last whenever `-1` is the least size present, as it is for
declared content lengths), renders an error outcome as one free-text
line and any other outcome as three aligned columns with `N/A` for an
unknown size, drops no entry (the sorted list is a permutation of the
input and the report renders one line per entry), and is deterministic
because `renderReport` is a function of the outcome collection alone. -/
theorem C5_report_builder (results : List Outcome) :
    ((sortResults results).Perm results) ∧
    ((sortResults results).length = results.length) ∧
    (∀ i j : Fin (sortResults results).length, i < j →
      ((sortResults results).get j).size ≤ ((sortResults results).get i).size) ∧
    ((∀ o ∈ results, -1 ≤ o.size) → ∀ i j : Fin (sortResults results).length, i < j →
      ((sortResults results).get i).size = -1 → ((sortResults results).get j).size = -1) ∧
    (∀ o : Outcome, o.status = -1 → renderLine o = o.text ++ "\n") ∧
    (∀ o : Outcome, o.status ≠ -1 → o.size = -1 →
      renderLine o = fmtRow (toString o.status) "N/A" o.text) ∧
    (∀ o : Outcome, o.status ≠ -1 → o.size ≠ -1 →
      renderLine o = fmtRow (toString o.status) (toString o.size) o.text) ∧
    (renderReport results
      = headersLine ++ separatorLine ++ String.join ((sortResults results).map renderLine)) ∧
    ((sortResults [⟨200, 100, "u1"⟩, ⟨-1, -1, "e1"⟩, ⟨200, 500, "u2"⟩, ⟨-1, -1, "e2"⟩]).map
      Outcome.size = [500, 100, -1, -1]) := by
  have hperm : (sortResults results).Perm results := List.perm_insertionSort sizeGE results
  have hpair := sortResults_pairwise results
  rw [List.pairwise_iff_get] at hpair
  refine ⟨hperm, hperm.length_eq, hpair, ?_, ?_, ?_, ?_, rfl, by decide⟩
  · intro hmin i j hij hi
    have hle := hpair i j hij
    have hmem : (sortResults results).get j ∈ sortResults results :=
      List.get_mem (sortResults results) j.1 j.2
    have hge := hmin _ (hperm.mem_iff.mp hmem)
    omega
  · intro o h
    simp [renderLine, h]
  · intro o hs hz
    simp [renderLine, hs, hz]
  · intro o hs hz
    simp [renderLine, hs, hz]

/-- C5 witness: concrete renderings of an error outcome and of a
success outcome with unknown size. -/
theorem C5_report_builder_witness :
    renderLine ⟨-1, -1, "boom"⟩ = "boom" ++ "\n" ∧
    renderLine ⟨200, -1, "u"⟩ = fmtRow (toString (200 : Int)) "N/A" "u" :=
  ⟨(C5_report_builder []).2.2.2.2.1 ⟨-1, -1, "boom"⟩ rfl,
   (C5_report_builder []).2.2.2.2.2.1 ⟨200, -1, "u"⟩ (by decide) rfl⟩

end Archive

namespace Archive

/- ------------------------------------------------------------------ -/
/- Pool invariants (for claims C1 and C2)                              -/
/- ------------------------------------------------------------------ -/

/-- No worker of a fresh pool holds a target. -/
theorem busyTargets_replicate_idle (n : Nat) :
    busyTargets (List.replicate n WStatus.idle) = [] := by
  induction n with
  | zero => rfl
  | succ k ih =>
    simp only [busyTargets, List.replicate_succ, List.filterMap_cons, busyOf] at ih ⊢
    exact ih

/-- No worker of a fully exited pool holds a target. -/
theorem busyTargets_of_all_exited (ws : List WStatus)
    (h : ∀ w ∈ ws, w = WStatus.exited) : busyTargets ws = [] := by
  induction ws with
  | nil => rfl
  | cons w rest ih =>
    have hw := h w (List.mem_cons_self w rest)
    subst hw
    simp only [busyTargets, List.filterMap_cons, busyOf]
    exact ih (fun x hx => h x (List.mem_cons_of_mem _ hx))

/-- Setting a non-busy worker slot to a busy one adds its target to the
in-flight multiset. -/
theorem busyTargets_set_to_busy (ws : List WStatus) (i : Nat) (a b : WStatus) (t : Target)
    (hget : ws.get? i = some a) (ha : busyOf a = none) (hb : busyOf b = some t) :
    (busyTargets (ws.set i b)).Perm (t :: busyTargets ws) := by
  induction ws generalizing i with
  | nil => cases hget
  | cons w rest ih =>
    cases i with
    | zero =>
      rw [List.get?_cons_zero] at hget
      injection hget with hw
      subst hw
      simp only [List.set_cons_zero, busyTargets, List.filterMap_cons, ha, hb]
      exact List.Perm.refl _
    | succ j =>
      rw [List.get?_cons_succ] at hget
      simp only [List.set_cons_succ, busyTargets, List.filterMap_cons]
      cases hw : busyOf w with
      | none => exact ih j hget
      | some x =>
        refine (List.Perm.cons x (ih j hget)).trans ?_
        exact List.Perm.swap t x _

/-- Setting a busy worker slot to a non-busy one removes its target from
the in-flight multiset. -/
theorem busyTargets_set_from_busy (ws : List WStatus) (i : Nat) (a b : WStatus) (t : Target)
    (hget : ws.get? i = some a) (ha : busyOf a = some t) (hb : busyOf b = none) :
    (t :: busyTargets (ws.set i b)).Perm (busyTargets ws) := by
  induction ws generalizing i with
  | nil => cases hget
  | cons w rest ih =>
    cases i with
    | zero =>
      rw [List.get?_cons_zero] at hget
      injection hget with hw
      subst hw
      simp only [List.set_cons_zero, busyTargets, List.filterMap_cons, ha, hb]
      exact List.Perm.refl _
    | succ j =>
      rw [List.get?_cons_succ] at hget
      simp only [List.set_cons_succ, busyTargets, List.filterMap_cons]
      cases hw : busyOf w with
      | none => exact ih j hget
      | some x =>
        exact (List.Perm.swap x t _).trans (List.Perm.cons x (ih j hget))

/-- Replacing a non-busy worker status by a non-busy one leaves the
in-flight multiset unchanged. -/
theorem busyTargets_set_nonbusy (ws : List WStatus) (i : Nat) (a b : WStatus)
    (hget : ws.get? i = some a) (ha : busyOf a = none) (hb : busyOf b = none) :
    busyTargets (ws.set i b) = busyTargets ws := by
  induction ws generalizing i with
  | nil => cases hget
  | cons w rest ih =>
    cases i with
    | zero =>
      rw [List.get?_cons_zero] at hget
      injection hget with hw
      subst hw
      simp only [List.set_cons_zero, busyTargets, List.filterMap_cons, ha, hb]
    | succ j =>
      rw [List.get?_cons_succ] at hget
      simp only [List.set_cons_succ, busyTargets, List.filterMap_cons]
      cases hw : busyOf w with
      | none => exact ih j hget
      | some x => exact congrArg (fun l => x :: l) (ih j hget)

/-- Number of targets already claimed from the queue: finished ones plus
in-flight ones. -/
def dcount (s : PoolState) : Nat :=
  s.checked + (busyTargets s.workers).length

/-- Run invariant of the pool: `task_done` count equals the checked
count, the queue is the untouched suffix of the enqueued list, and the
results are exactly the probe outcomes of the finished targets, where
finished plus in-flight targets are exactly the claimed ones. -/
def PoolInv (targets : List Target) (s : PoolState) : Prop :=
  s.taskDone = s.checked ∧
  dcount s ≤ targets.length ∧
  s.queue = targets.drop (dcount s) ∧
  ∃ procL : List Target,
    s.checked = procL.length ∧
    (procL ++ busyTargets s.workers).Perm (targets.take (dcount s)) ∧
    s.results.Perm (procL.filterMap probeOutcome)

/-- The invariant holds of a fresh pool. -/
theorem poolInv_init (targets : List Target) (threadCount : Nat) :
    PoolInv targets (initPool targets threadCount) := by
  refine ⟨rfl, ?_, ?_, [], rfl, ?_, List.Perm.refl _⟩
  · simp [dcount, initPool, busyTargets_replicate_idle]
  · simp [dcount, initPool, busyTargets_replicate_idle]
  · simp [dcount, initPool, busyTargets_replicate_idle]

end Archive


namespace Archive

/-- One pool step preserves the run invariant. -/
theorem stepPool_inv {targets : List Target} {s s2 : PoolState} {e : Evt}
    (hinv : PoolInv targets s) (hstep : stepPool s e = some s2) :
    PoolInv targets s2 := by
  obtain ⟨htd, hdle, hq, procL, hlen, hperm, hres⟩ := hinv
  cases e with
  | setStop =>
    rw [stepPool] at hstep
    injection hstep with h2
    subst h2
    exact ⟨htd, hdle, hq, procL, hlen, hperm, hres⟩
  | dequeue i =>
    rw [stepPool] at hstep
    cases hget : s.workers.get? i with
    | none => rw [hget] at hstep; simp at hstep
    | some w =>
      rw [hget] at hstep
      cases w with
      | busy t => simp at hstep
      | exited => simp at hstep
      | idle =>
        cases hq2 : s.queue with
        | nil => rw [hq2] at hstep; simp at hstep
        | cons t rest =>
          rw [hq2] at hstep
          cases hstop : s.stopped with
          | true => rw [hstop] at hstep; simp at hstep
          | false =>
            rw [hstop] at hstep
            simp only [Bool.false_eq_true, if_false, Option.some.injEq] at hstep
            subst hstep
            have hbusy : (busyTargets (s.workers.set i (.busy t))).Perm
                (t :: busyTargets s.workers) :=
              busyTargets_set_to_busy s.workers i .idle (.busy t) t hget rfl rfl
            have hlenB : (busyTargets (s.workers.set i (.busy t))).length
                = (busyTargets s.workers).length + 1 := hbusy.length_eq
            have hd2 : s.checked + (busyTargets (s.workers.set i (.busy t))).length
                = dcount s + 1 := by
              rw [hlenB, dcount]
              omega
            have hdrop : targets.drop (dcount s) = t :: rest := by rw [← hq, hq2]
            have hlt : dcount s < targets.length := by
              have hl := List.length_drop (dcount s) targets
              rw [hdrop] at hl
              simp at hl
              omega
            have hgetT : targets[dcount s]? = some t := by
              have h0 : (targets.drop (dcount s))[0]? = targets[dcount s + 0]? :=
                List.getElem?_drop targets (dcount s) 0
              rw [hdrop] at h0
              simpa using h0.symm
            have htake : targets.take (dcount s + 1)
                = targets.take (dcount s) ++ [t] := by
              rw [List.take_succ, hgetT]
              rfl
            refine ⟨htd, ?_, ?_, procL, hlen, ?_, hres⟩
            · show s.checked + (busyTargets (s.workers.set i (.busy t))).length
                ≤ targets.length
              omega
            · show rest = targets.drop
                (s.checked + (busyTargets (s.workers.set i (.busy t))).length)
              rw [hd2]
              have hdd : targets.drop (dcount s + 1)
                  = (targets.drop (dcount s)).drop 1 := (List.drop_drop 1 (dcount s) targets).symm
              rw [hdd, hdrop]
              rfl
            · show (procL ++ busyTargets (s.workers.set i (.busy t))).Perm
                (targets.take (s.checked + (busyTargets (s.workers.set i (.busy t))).length))
              rw [hd2, htake]
              refine (List.Perm.append_left procL hbusy).trans ?_
              refine List.perm_middle.trans ?_
              refine (List.Perm.cons t hperm).trans ?_
              exact (List.perm_append_singleton t (targets.take (dcount s))).symm
  | finish i =>
    rw [stepPool] at hstep
    cases hget : s.workers.get? i with
    | none => rw [hget] at hstep; simp at hstep
    | some w =>
      rw [hget] at hstep
      cases w with
      | idle => simp at hstep
      | exited => simp at hstep
      | busy t =>
        simp only [Option.some.injEq] at hstep
        subst hstep
        have hbusy : (t :: busyTargets (s.workers.set i .idle)).Perm
            (busyTargets s.workers) :=
          busyTargets_set_from_busy s.workers i (.busy t) .idle t hget rfl rfl
        have hlenB : (busyTargets (s.workers.set i .idle)).length + 1
            = (busyTargets s.workers).length := by
          have hl := hbusy.length_eq
          simpa using hl
        have hd2 : s.checked + 1 + (busyTargets (s.workers.set i .idle)).length
            = dcount s := by
          rw [dcount]
          omega
        have hfm : (probeOutcome t).toList = List.filterMap probeOutcome [t] := by
          cases hpo : probeOutcome t with
          | none => simp [List.filterMap_cons, hpo]
          | some o => simp [List.filterMap_cons, hpo]
        refine ⟨?_, ?_, ?_, procL ++ [t], ?_, ?_, ?_⟩
        · show s.taskDone + 1 = s.checked + 1
          omega
        · show s.checked + 1 + (busyTargets (s.workers.set i .idle)).length
            ≤ targets.length
          omega
        · show s.queue = targets.drop
            (s.checked + 1 + (busyTargets (s.workers.set i .idle)).length)
          rw [hd2]
          exact hq
        · show s.checked + 1 = (procL ++ [t]).length
          rw [List.length_append]
          simp
          omega
        · show ((procL ++ [t]) ++ busyTargets (s.workers.set i .idle)).Perm
            (targets.take (s.checked + 1 + (busyTargets (s.workers.set i .idle)).length))
          rw [hd2, List.append_assoc]
          exact (List.Perm.append_left procL hbusy).trans hperm
        · show (s.results ++ (probeOutcome t).toList).Perm
            ((procL ++ [t]).filterMap probeOutcome)
          rw [List.filterMap_append, hfm]
          exact hres.append_right _
  | exit i =>
    rw [stepPool] at hstep
    cases hget : s.workers.get? i with
    | none => rw [hget] at hstep; simp at hstep
    | some w =>
      rw [hget] at hstep
      cases w with
      | busy t => simp at hstep
      | exited => simp at hstep
      | idle =>
        cases hguard : (s.queue.isEmpty || s.stopped) with
        | false => rw [hguard] at hstep; simp at hstep
        | true =>
          rw [hguard] at hstep
          simp only [if_true, Option.some.injEq] at hstep
          subst hstep
          have hbt : busyTargets (s.workers.set i .exited) = busyTargets s.workers :=
            busyTargets_set_nonbusy s.workers i .idle .exited hget rfl rfl
          refine ⟨htd, ?_, ?_, procL, hlen, ?_, hres⟩
          · show s.checked + (busyTargets (s.workers.set i .exited)).length ≤ targets.length
            rw [hbt]
            exact hdle
          · show s.queue = targets.drop
              (s.checked + (busyTargets (s.workers.set i .exited)).length)
            rw [hbt]
            exact hq
          · show (procL ++ busyTargets (s.workers.set i .exited)).Perm
              (targets.take (s.checked + (busyTargets (s.workers.set i .exited)).length))
            rw [hbt]
            exact hperm

end Archive

namespace Archive

/-- Enumeration of the possible shapes of an enabled pool step. -/
theorem stepPool_cases {s s2 : PoolState} {e : Evt} (hstep : stepPool s e = some s2) :
    (e = .setStop ∧ s2 = { s with stopped := true }) ∨
    (∃ i t rest, e = .dequeue i ∧ s.workers.get? i = some .idle ∧ s.queue = t :: rest ∧
      s.stopped = false ∧
      s2 = { s with queue := rest, workers := s.workers.set i (.busy t) }) ∨
    (∃ i t, e = .finish i ∧ s.workers.get? i = some (.busy t) ∧
      s2 = { s with results := s.results ++ (probeOutcome t).toList,
                    checked := s.checked + 1,
                    taskDone := s.taskDone + 1,
                    workers := s.workers.set i .idle }) ∨
    (∃ i, e = .exit i ∧ s.workers.get? i = some .idle ∧
      (s.queue.isEmpty || s.stopped) = true ∧
      s2 = { s with workers := s.workers.set i .exited }) := by
  cases e with
  | setStop =>
    rw [stepPool] at hstep
    injection hstep with h2
    exact Or.inl ⟨rfl, h2.symm⟩
  | dequeue i =>
    rw [stepPool] at hstep
    cases hget : s.workers.get? i with
    | none => rw [hget] at hstep; simp at hstep
    | some w =>
      rw [hget] at hstep
      cases w with
      | busy t => simp at hstep
      | exited => simp at hstep
      | idle =>
        cases hq2 : s.queue with
        | nil => rw [hq2] at hstep; simp at hstep
        | cons t rest =>
          rw [hq2] at hstep
          cases hstop : s.stopped with
          | true => rw [hstop] at hstep; simp at hstep
          | false =>
            rw [hstop] at hstep
            simp only [Bool.false_eq_true, if_false, Option.some.injEq] at hstep
            exact Or.inr (Or.inl ⟨i, t, rest, rfl, hget, rfl, rfl, hstep.symm⟩)
  | finish i =>
    rw [stepPool] at hstep
    cases hget : s.workers.get? i with
    | none => rw [hget] at hstep; simp at hstep
    | some w =>
      rw [hget] at hstep
      cases w with
      | idle => simp at hstep
      | exited => simp at hstep
      | busy t =>
        simp only [Option.some.injEq] at hstep
        exact Or.inr (Or.inr (Or.inl ⟨i, t, rfl, hget, hstep.symm⟩))
  | exit i =>
    rw [stepPool] at hstep
    cases hget : s.workers.get? i with
    | none => rw [hget] at hstep; simp at hstep
    | some w =>
      rw [hget] at hstep
      cases w with
      | busy t => simp at hstep
      | exited => simp at hstep
      | idle =>
        cases hguard : (s.queue.isEmpty || s.stopped) with
        | false => rw [hguard] at hstep; simp at hstep
        | true =>
          rw [hguard] at hstep
          simp only [if_true, Option.some.injEq] at hstep
          exact Or.inr (Or.inr (Or.inr ⟨i, rfl, hget, rfl, hstep.symm⟩))

/-- The run invariant holds after any valid schedule. -/
theorem runEvents_inv {targets : List Target} :
    ∀ (es : List Evt) {s s2 : PoolState},
      PoolInv targets s → runEvents s es = some s2 → PoolInv targets s2 := by
  intro es
  induction es with
  | nil =>
    intro s s2 hinv hrun
    rw [runEvents] at hrun
    injection hrun with h
    subst h
    exact hinv
  | cons e rest ih =>
    intro s s2 hinv hrun
    rw [runEvents] at hrun
    cases hstep : stepPool s e with
    | none => rw [hstep] at hrun; simp at hrun
    | some s1 =>
      rw [hstep] at hrun
      exact ih (stepPool_inv hinv hstep) hrun

/-- Once the stop event is set, it stays set and the queue is frozen:
no worker passes the loop condition again, so the undequeued targets
are never claimed. -/
theorem runEvents_stopped_frozen :
    ∀ (es : List Evt) {s s2 : PoolState}, s.stopped = true →
      runEvents s es = some s2 → s2.stopped = true ∧ s2.queue = s.queue := by
  intro es
  induction es with
  | nil =>
    intro s s2 hs hrun
    rw [runEvents] at hrun
    injection hrun with h
    subst h
    exact ⟨hs, rfl⟩
  | cons e rest ih =>
    intro s s2 hs hrun
    rw [runEvents] at hrun
    cases hstep : stepPool s e with
    | none => rw [hstep] at hrun; simp at hrun
    | some s1 =>
      rw [hstep] at hrun
      have hrun2 : runEvents s1 rest = some s2 := hrun
      have hshape := stepPool_cases hstep
      rcases hshape with ⟨_, h2⟩ | ⟨i, t, rest2, _, _, _, hstop, h2⟩ |
        ⟨i, t, _, _, h2⟩ | ⟨i, _, _, _, h2⟩
      · have hst1 : s1.stopped = true := by rw [h2]
        have hq1 : s1.queue = s.queue := by rw [h2]
        have hres := ih hst1 hrun2
        exact ⟨hres.1, hres.2.trans hq1⟩
      · rw [hs] at hstop
        cases hstop
      · have hst1 : s1.stopped = true := by rw [h2]; exact hs
        have hq1 : s1.queue = s.queue := by rw [h2]
        have hres := ih hst1 hrun2
        exact ⟨hres.1, hres.2.trans hq1⟩
      · have hst1 : s1.stopped = true := by rw [h2]; exact hs
        have hq1 : s1.queue = s.queue := by rw [h2]
        have hres := ih hst1 hrun2
        exact ⟨hres.1, hres.2.trans hq1⟩

/-- A schedule with no stop event leaves the stop flag as it was. -/
theorem runEvents_noStop_stopped :
    ∀ (es : List Evt) {s s2 : PoolState}, (∀ e ∈ es, e ≠ Evt.setStop) →
      runEvents s es = some s2 → s2.stopped = s.stopped := by
  intro es
  induction es with
  | nil =>
    intro s s2 _ hrun
    rw [runEvents] at hrun
    injection hrun with h
    subst h
    rfl
  | cons e rest ih =>
    intro s s2 hns hrun
    rw [runEvents] at hrun
    cases hstep : stepPool s e with
    | none => rw [hstep] at hrun; simp at hrun
    | some s1 =>
      rw [hstep] at hrun
      have hrun2 : runEvents s1 rest = some s2 := hrun
      have hrest : ∀ x ∈ rest, x ≠ Evt.setStop :=
        fun x hx => hns x (List.mem_cons_of_mem _ hx)
      have hshape := stepPool_cases hstep
      rcases hshape with ⟨he, _⟩ | ⟨i, t, rest2, _, _, _, _, h2⟩ |
        ⟨i, t, _, _, h2⟩ | ⟨i, _, _, _, h2⟩
      · exact absurd he (hns e (List.mem_cons_self e rest))
      · have hst1 : s1.stopped = s.stopped := by rw [h2]
        exact (ih hrest hrun2).trans hst1
      · have hst1 : s1.stopped = s.stopped := by rw [h2]
        exact (ih hrest hrun2).trans hst1
      · have hst1 : s1.stopped = s.stopped := by rw [h2]
        exact (ih hrest hrun2).trans hst1

/-- Pool steps preserve the number of workers. -/
theorem runEvents_workers_length :
    ∀ (es : List Evt) {s s2 : PoolState}, runEvents s es = some s2 →
      s2.workers.length = s.workers.length := by
  intro es
  induction es with
  | nil =>
    intro s s2 hrun
    rw [runEvents] at hrun
    injection hrun with h
    subst h
    rfl
  | cons e rest ih =>
    intro s s2 hrun
    rw [runEvents] at hrun
    cases hstep : stepPool s e with
    | none => rw [hstep] at hrun; simp at hrun
    | some s1 =>
      rw [hstep] at hrun
      have hrun2 : runEvents s1 rest = some s2 := hrun
      have hshape := stepPool_cases hstep
      rcases hshape with ⟨_, h2⟩ | ⟨i, t, rest2, _, _, _, _, h2⟩ |
        ⟨i, t, _, _, h2⟩ | ⟨i, _, _, _, h2⟩ <;>
        rw [ih hrun2, h2] <;>
        simp [List.length_set]

end Archive

namespace Archive

/-- When the pool was never stopped, a worker can only have exited
after observing the queue empty; since the queue never refills, an
exited worker in an unstopped pool implies an empty queue. -/
def ExitInv (s : PoolState) : Prop :=
  s.stopped = false → WStatus.exited ∈ s.workers → s.queue = []

/-- One pool step preserves the exit invariant. -/
theorem stepPool_exitInv {s s2 : PoolState} {e : Evt}
    (hinv : ExitInv s) (hstep : stepPool s e = some s2) : ExitInv s2 := by
  have hshape := stepPool_cases hstep
  rcases hshape with ⟨_, h2⟩ | ⟨i, t, rest, _, hget, hq2, hstop, h2⟩ |
    ⟨i, t, _, hget, h2⟩ | ⟨i, _, hget, hguard, h2⟩
  · subst h2
    intro hf
    cases hf
  · subst h2
    intro hf hmem
    rcases List.mem_or_eq_of_mem_set hmem with hm | he
    · have hq0 := hinv hf hm
      rw [hq2] at hq0
      cases hq0
    · cases he
  · subst h2
    intro hf hmem
    rcases List.mem_or_eq_of_mem_set hmem with hm | he
    · exact hinv hf hm
    · cases he
  · subst h2
    intro hf hmem
    have hst : s.stopped = false := hf
    rw [hst, Bool.or_false] at hguard
    exact List.isEmpty_iff.mp hguard

/-- The exit invariant holds after any valid schedule. -/
theorem runEvents_exitInv :
    ∀ (es : List Evt) {s s2 : PoolState}, ExitInv s →
      runEvents s es = some s2 → ExitInv s2 := by
  intro es
  induction es with
  | nil =>
    intro s s2 hinv hrun
    rw [runEvents] at hrun
    injection hrun with h
    subst h
    exact hinv
  | cons e rest ih =>
    intro s s2 hinv hrun
    rw [runEvents] at hrun
    cases hstep : stepPool s e with
    | none => rw [hstep] at hrun; simp at hrun
    | some s1 =>
      rw [hstep] at hrun
      exact ih (stepPool_exitInv hinv hstep) hrun

/- ------------------------------------------------------------------ -/
/- Claim C2: completion without cancellation                           -/
/- ------------------------------------------------------------------ -/

/-- C2: in any run over the enqueued targets in which the stop event is
never set and the pool runs until every worker has exited, the checked
counter and the task-done counter both equal the number of enqueued
targets, the join barrier returns, and the results are exactly one
outcome per enqueued target minus the 400/404 discards (as a
permutation of the per-target outcomes, order depending on the
interleaving); moreover every finish step, on every exit path of the
probe (success, discard or transport failure), increments the checked
and task-done counters exactly once. -/
theorem C2_no_cancel_completion (targets : List Target) (threadCount : Nat) (es : List Evt)
    (s2 : PoolState) (hW : 0 < threadCount)
    (hns : ∀ e ∈ es, e ≠ Evt.setStop)
    (hrun : runEvents (initPool targets threadCount) es = some s2)
    (hterm : ∀ w ∈ s2.workers, w = WStatus.exited) :
    s2.checked = targets.length ∧
    s2.taskDone = targets.length ∧
    joinReturns s2 targets.length ∧
    s2.results.Perm (targets.filterMap probeOutcome) ∧
    (∀ (s3 s4 : PoolState) (i : Nat), stepPool s3 (.finish i) = some s4 →
      s4.checked = s3.checked + 1 ∧ s4.taskDone = s3.taskDone + 1) := by
  have hinv := runEvents_inv es (poolInv_init targets threadCount) hrun
  obtain ⟨htd, hdle, hq, procL, hlen, hperm, hres⟩ := hinv
  have hstop2 : s2.stopped = false := by
    have h := runEvents_noStop_stopped es hns hrun
    rw [h]
    rfl
  have hexit0 : ExitInv (initPool targets threadCount) := by
    intro _ hmem
    rw [initPool] at hmem
    have := List.eq_of_mem_replicate hmem
    cases this
  have hexit : ExitInv s2 := runEvents_exitInv es hexit0 hrun
  have hwl : s2.workers.length = threadCount := by
    have hl := runEvents_workers_length es hrun
    rw [hl]
    simp [initPool]
  have hne : s2.workers ≠ [] := by
    intro h
    rw [h] at hwl
    simp at hwl
    omega
  obtain ⟨w, hwmem⟩ := List.exists_mem_of_ne_nil s2.workers hne
  have hwex : WStatus.exited ∈ s2.workers := by
    have hw := hterm w hwmem
    rwa [hw] at hwmem
  have hqe : s2.queue = [] := hexit hstop2 hwex
  have hbz : busyTargets s2.workers = [] := busyTargets_of_all_exited s2.workers hterm
  have hdg : targets.length ≤ dcount s2 := by
    rw [hqe] at hq
    exact List.drop_eq_nil_iff.mp hq.symm
  have hdc : dcount s2 = targets.length := le_antisymm hdle hdg
  have hch : s2.checked = targets.length := by
    rw [dcount, hbz] at hdc
    simpa using hdc
  have hpl : procL.Perm targets := by
    rw [hbz, List.append_nil, hdc, List.take_length] at hperm
    exact hperm
  refine ⟨hch, ?_, ?_, ?_, ?_⟩
  · rw [htd]
    exact hch
  · show s2.taskDone = targets.length
    rw [htd]
    exact hch
  · exact hres.trans (hpl.filterMap probeOutcome)
  · intro s3 s4 i hstep
    have hshape := stepPool_cases hstep
    rcases hshape with ⟨he, _⟩ | ⟨j, t, rest, he, _⟩ | ⟨j, t, _, hget, h2⟩ | ⟨j, he, _⟩
    · cases he
    · cases he
    · subst h2
      exact ⟨rfl, rfl⟩
    · cases he

/-- C2 witness: a concrete one-worker run over two targets, one of
which is a 404 discard: both counters end at 2 and the single retained
outcome is collected. -/
theorem C2_no_cancel_completion_witness :
    PoolState.checked ⟨[], false, [⟨200, 10, "http://a"⟩], 2, 2, [.exited]⟩
      = (([⟨"a", .ok 200 10⟩, ⟨"b", .ok 404 0⟩] : List Target)).length ∧
    PoolState.taskDone ⟨[], false, [⟨200, 10, "http://a"⟩], 2, 2, [.exited]⟩
      = (([⟨"a", .ok 200 10⟩, ⟨"b", .ok 404 0⟩] : List Target)).length ∧
    joinReturns ⟨[], false, [⟨200, 10, "http://a"⟩], 2, 2, [.exited]⟩
      (([⟨"a", .ok 200 10⟩, ⟨"b", .ok 404 0⟩] : List Target)).length ∧
    (PoolState.results ⟨[], false, [⟨200, 10, "http://a"⟩], 2, 2, [.exited]⟩).Perm
      (([⟨"a", .ok 200 10⟩, ⟨"b", .ok 404 0⟩] : List Target).filterMap probeOutcome) ∧
    (∀ (s3 s4 : PoolState) (i : Nat), stepPool s3 (.finish i) = some s4 →
      s4.checked = s3.checked + 1 ∧ s4.taskDone = s3.taskDone + 1) :=
  C2_no_cancel_completion [⟨"a", .ok 200 10⟩, ⟨"b", .ok 404 0⟩] 1
    [.dequeue 0, .finish 0, .dequeue 0, .finish 0, .exit 0]
    ⟨[], false, [⟨200, 10, "http://a"⟩], 2, 2, [.exited]⟩
    (by decide) (by decide) (by decide) (by decide)

end Archive

namespace Archive

/- ------------------------------------------------------------------ -/
/- Claim C1: cancellation                                              -/
/- ------------------------------------------------------------------ -/

/-- Targets of the C1 stop scenario: two URLs are enqueued. -/
def stopTargets : List Target :=
  [⟨"a", .ok 200 10⟩, ⟨"b", .ok 200 20⟩]

/-- Schedule of the C1 stop scenario: the single worker dequeues the
first target, the user presses Stop, the worker finishes its in-flight
probe, observes the flag and exits without claiming the second target. -/
def stopSched : List Evt :=
  [.dequeue 0, .setStop, .finish 0, .exit 0]

/-- Pool state reached by `stopSched`: one target still queued, stop
flag set, one result collected, both counters at 1, worker exited. -/
def stoppedPool : PoolState :=
  ⟨[⟨"b", .ok 200 20⟩], true, [⟨200, 10, "http://a"⟩], 1, 1, [.exited]⟩

/-- C1 refutation: with the stop signal set after 1 of 2 enqueued
targets has been dequeued, the worker does stop claiming new targets,
but the caller's barrier is `q.join()` (archive.py line 295), which
returns only when `task_done` has been called once per `put`; the
never-dequeued target is never marked done, so under every valid
continuation of the run the task-done count stays below the enqueued
count and the join never returns — the run hangs instead of ending
with status `Stopped`. -/
theorem C1_stop_join_never_returns :
    runEvents (initPool stopTargets 1) stopSched = some stoppedPool ∧
    (∀ (es : List Evt) (s2 : PoolState), runEvents stoppedPool es = some s2 →
      s2.taskDone < stopTargets.length ∧ ¬ joinReturns s2 stopTargets.length) := by
  constructor
  · decide
  · intro es s2 hrun
    have hfroz := runEvents_stopped_frozen es rfl hrun
    have hinv0 : PoolInv stopTargets stoppedPool := by
      refine ⟨rfl, by decide, by decide, [⟨"a", .ok 200 10⟩], rfl, by decide, by decide⟩
    have hinv2 := runEvents_inv es hinv0 hrun
    obtain ⟨htd, hdle, hq, procL, hlen, hperm, hres⟩ := hinv2
    have hqb : stopTargets.drop (dcount s2) = [⟨"b", .ok 200 20⟩] := by
      rw [← hq, hfroz.2]
      rfl
    have hlen2 : stopTargets.length - dcount s2 = 1 := by
      have hl := List.length_drop (dcount s2) stopTargets
      rw [hqb] at hl
      simpa using hl.symm
    have hL : stopTargets.length = 2 := rfl
    have hdc : dcount s2 = 1 := by omega
    have hatom : s2.checked + (busyTargets s2.workers).length = dcount s2 := rfl
    have htdle : s2.taskDone ≤ 1 := by omega
    constructor
    · omega
    · intro hj
      have hj2 : s2.taskDone = stopTargets.length := hj
      omega

/-- C1 witness: the deadlocked state itself already satisfies the
barrier-starvation bound (the empty continuation). -/
theorem C1_stop_join_never_returns_witness :
    stoppedPool.taskDone < stopTargets.length ∧
    ¬ joinReturns stoppedPool stopTargets.length :=
  C1_stop_join_never_returns.2 [] stoppedPool rfl

end Archive

namespace Archive

/- ------------------------------------------------------------------ -/
/- Claim C7: input validation                                          -/
/- ------------------------------------------------------------------ -/

/-- C7: a run whose stripped domain is empty, or whose stripped limit
does not parse as an integer, immediately returns the matching
validation message (replacing the report area, archive.py lines 229 and
236), with the `Status: Error` label, the archive-index query never
issued (`queried = none`) and zero workers started; the outcome is
independent of the network environment, so no network request is made. -/
theorem C7_validation_errors (env : RunEnv) (sched : List Evt) :
    (pyStrip env.domainText = "" →
      fetchAndCheck env sched = some ⟨none, 0, .validationError domainErrMsg⟩) ∧
    (pyStrip env.domainText ≠ "" → pyParseInt (pyStrip env.limitText) = none →
      fetchAndCheck env sched = some ⟨none, 0, .validationError limitErrMsg⟩) ∧
    (∀ msg, statusOf ⟨none, 0, RunResult.validationError msg⟩ = some "Status: Error") ∧
    ((pyStrip env.domainText = "" ∨ pyParseInt (pyStrip env.limitText) = none) →
      ∀ (f2 : FetchResult) (r2 : String → ProbeResponse),
        fetchAndCheck ⟨env.domainText, env.limitText, env.threadCount, f2, r2⟩ sched
          = fetchAndCheck env sched) := by
  refine ⟨?_, ?_, fun msg => rfl, ?_⟩
  · intro hd
    rw [fetchAndCheck]
    simp [hd]
  · intro hd hl
    rw [fetchAndCheck]
    simp [hd, hl]
  · intro hbad f2 r2
    rcases hbad with hd | hl
    · rw [fetchAndCheck, fetchAndCheck]
      simp [hd]
    · by_cases hd : pyStrip env.domainText = ""
      · rw [fetchAndCheck, fetchAndCheck]
        simp [hd]
      · rw [fetchAndCheck, fetchAndCheck]
        simp [hd, hl]

/-- C7 witness: an empty domain and a non-numeric limit each produce
the immediate validation error with no query issued. -/
theorem C7_validation_errors_witness :
    fetchAndCheck ⟨"", "10000", 5, .ok ["u"], fun _ => .ok 200 0⟩ []
      = some ⟨none, 0, .validationError domainErrMsg⟩ ∧
    fetchAndCheck ⟨"example.com", "abc", 5, .ok ["u"], fun _ => .ok 200 0⟩ []
      = some ⟨none, 0, .validationError limitErrMsg⟩ :=
  ⟨(C7_validation_errors ⟨"", "10000", 5, .ok ["u"], fun _ => .ok 200 0⟩ []).1 (by decide),
   (C7_validation_errors ⟨"example.com", "abc", 5, .ok ["u"], fun _ => .ok 200 0⟩ []).2.1
     (by decide) (by decide)⟩

end Archive

namespace Archive

/- ------------------------------------------------------------------ -/
/- Claim C6: terminal statuses                                         -/
/- ------------------------------------------------------------------ -/

/-- C6 counterexample: when the archive-index query throws, the run
ends with the label `Status: Fetch Error` (archive.py line 328), which
is none of `Status: Complete`, `Status: Stopped`, `Status: Error` — in
particular a failing query does not end the run with status `Error` as
the claim states. -/
theorem C6_counterexample :
    fetchAndCheck ⟨"example.com", "10000", 5, .exn "connection refused", fun _ => .ok 200 0⟩ []
      = some ⟨some (buildTargetUrl "example.com" 10000), 0,
          .fetchErrorCase "connection refused"⟩ ∧
    statusOf ⟨some (buildTargetUrl "example.com" 10000), 0,
        .fetchErrorCase "connection refused"⟩ = some "Status: Fetch Error" ∧
    ("Status: Fetch Error" ≠ "Status: Complete" ∧
     "Status: Fetch Error" ≠ "Status: Stopped" ∧
     "Status: Fetch Error" ≠ "Status: Error") := by
  refine ⟨by decide, rfl, by decide⟩

/-- C6 amended: every run that reaches a terminal status reaches one of
`Status: Complete`, `Status: Stopped`, `Status: Error` or
`Status: Fetch Error`; when validation passes and the archive-index
query returns an empty list, no workers are started and the run ends
with status `Error`; when validation passes and the query throws, no
workers are started and the run ends with status `Fetch Error`. -/
theorem C6_terminal_statuses (env : RunEnv) (sched : List Evt) (out : RunOutput)
    (hout : fetchAndCheck env sched = some out) :
    (∀ st, statusOf out = some st →
      st ∈ (["Status: Complete", "Status: Stopped", "Status: Error",
             "Status: Fetch Error"] : List String)) ∧
    (pyStrip env.domainText ≠ "" → pyParseInt (pyStrip env.limitText) ≠ none →
      (env.fetch = .ok [] → out.workersStarted = 0 ∧ statusOf out = some "Status: Error") ∧
      (∀ m, env.fetch = .exn m →
        out.workersStarted = 0 ∧ statusOf out = some "Status: Fetch Error")) := by
  constructor
  · intro st hst
    rcases out with ⟨q, w, r⟩
    cases r with
    | validationError m =>
      rw [statusOf] at hst
      injection hst with h
      subst h
      simp
    | fetchErrorCase m =>
      rw [statusOf] at hst
      injection hst with h
      subst h
      simp
    | emptyListError =>
      rw [statusOf] at hst
      injection hst with h
      subst h
      simp
    | blockedAtJoin s =>
      rw [statusOf] at hst
      cases hst
    | finished b table =>
      cases b with
      | true =>
        rw [statusOf] at hst
        injection hst with h
        subst h
        simp
      | false =>
        rw [statusOf] at hst
        injection hst with h
        subst h
        simp
  · intro hdom hlim
    rw [fetchAndCheck, if_neg hdom] at hout
    cases hparse : pyParseInt (pyStrip env.limitText) with
    | none => exact absurd hparse hlim
    | some k =>
      rw [hparse] at hout
      constructor
      · intro hf
        rw [hf] at hout
        simp only [if_pos] at hout
        injection hout with h
        subst h
        exact ⟨rfl, rfl⟩
      · intro m hf
        rw [hf] at hout
        injection hout with h
        subst h
        exact ⟨rfl, rfl⟩

/-- C6 witness: a run whose archive-index query returns the empty list
ends with zero workers and status `Error`. -/
theorem C6_terminal_statuses_witness :
    RunOutput.workersStarted ⟨some (buildTargetUrl "example.com" 10000), 0, .emptyListError⟩ = 0 ∧
    statusOf ⟨some (buildTargetUrl "example.com" 10000), 0, .emptyListError⟩
      = some "Status: Error" :=
  ((C6_terminal_statuses ⟨"example.com", "10000", 5, .ok [], fun _ => .ok 200 0⟩ [] _
      (by decide)).2 (by decide) (by decide)).1 rfl

end Archive

namespace Archive

/- ------------------------------------------------------------------ -/
/- Claim C9: fully filtered list                                       -/
/- ------------------------------------------------------------------ -/

/-- C9: when the archive-index query returns a non-empty list but the
filter removes every entry, the run does not end in `Error`: the pool
is still started with `threadCount` workers over an empty queue, no
dequeue and no finish step is ever enabled so each worker can only
exit (or observe the flag), and for any valid stop-free schedule the
run ends with status `Complete` and a report consisting of the header
and separator lines with zero data rows. -/
theorem C9_empty_after_filter (env : RunEnv) (sched : List Evt) (out : RunOutput)
    (lines : List String)
    (hdom : pyStrip env.domainText ≠ "")
    (k : Int) (hlim : pyParseInt (pyStrip env.limitText) = some k)
    (hf : env.fetch = .ok lines) (hlines : lines ≠ [])
    (hfilt : filterUrls lines = [])
    (hns : ∀ e ∈ sched, e ≠ Evt.setStop)
    (hout : fetchAndCheck env sched = some out) :
    out.workersStarted = env.threadCount ∧
    out.result = RunResult.finished false (renderReport []) ∧
    renderReport [] = headersLine ++ separatorLine ∧
    statusOf out = some "Status: Complete" ∧
    (∀ i : Nat,
      stepPool (initPool ([] : List Target) env.threadCount) (.dequeue i) = none ∧
      stepPool (initPool ([] : List Target) env.threadCount) (.finish i) = none) := by
  rw [fetchAndCheck, if_neg hdom] at hout
  simp only [hlim, hf] at hout
  rw [if_neg hlines, hfilt] at hout
  simp only [List.map_nil, List.length_nil] at hout
  cases hre : runEvents (initPool ([] : List Target) env.threadCount) sched with
  | none =>
    rw [hre] at hout
    simp at hout
  | some s =>
    rw [hre] at hout
    have hinv := runEvents_inv sched (poolInv_init ([] : List Target) env.threadCount) hre
    obtain ⟨htd, hdle, hq0, procL, hlen, hperm, hres⟩ := hinv
    have hch : s.checked = 0 := by
      have hd : dcount s ≤ 0 := hdle
      rw [dcount] at hd
      omega
    have htd0 : s.taskDone = 0 := by
      rw [htd]
      exact hch
    have hproc : procL = [] := by
      have hl : procL.length = 0 := by omega
      exact List.eq_nil_of_length_eq_zero hl
    have hres0 : s.results = [] := by
      rw [hproc] at hres
      exact hres.eq_nil
    have hst := runEvents_noStop_stopped sched hns hre
    have hstop : s.stopped = false := by
      rw [hst]
      rfl
    have hout2 : (if s.taskDone = 0 then
        some (RunOutput.mk (some (buildTargetUrl (pyStrip env.domainText) k)) env.threadCount
          (RunResult.finished s.stopped (renderReport s.results)))
      else
        some (RunOutput.mk (some (buildTargetUrl (pyStrip env.domainText) k)) env.threadCount
          (RunResult.blockedAtJoin s))) = some out := hout
    rw [if_pos htd0] at hout2
    injection hout2 with h
    subst h
    refine ⟨rfl, ?_, by decide, ?_, ?_⟩
    · show RunResult.finished s.stopped (renderReport s.results)
        = RunResult.finished false (renderReport [])
      rw [hstop, hres0]
    · simp [statusOf, hstop]
    · intro i
      constructor
      · rw [stepPool]
        cases hget : (initPool ([] : List Target) env.threadCount).workers.get? i with
        | none => rfl
        | some w =>
          have hw := List.eq_of_mem_replicate (List.get?_mem hget)
          subst hw
          rfl
      · rw [stepPool]
        cases hget : (initPool ([] : List Target) env.threadCount).workers.get? i with
        | none => rfl
        | some w =>
          have hw := List.eq_of_mem_replicate (List.get?_mem hget)
          subst hw
          rfl

/-- C9 witness: a single `.png` entry is filtered out entirely and the
run still completes with an empty report body. -/
theorem C9_empty_after_filter_witness :
    RunOutput.workersStarted ⟨some (buildTargetUrl "example.com" 10000), 2,
        .finished false (renderReport [])⟩ = 2 ∧
    statusOf ⟨some (buildTargetUrl "example.com" 10000), 2,
        .finished false (renderReport [])⟩ = some "Status: Complete" :=
  have h := C9_empty_after_filter
    ⟨"example.com", "10000", 2, .ok ["http://example.com/a.png"], fun _ => .ok 200 0⟩
    [] ⟨some (buildTargetUrl "example.com" 10000), 2, .finished false (renderReport [])⟩
    ["http://example.com/a.png"] (by decide) 10000 (by decide) rfl (by decide) (by decide)
    (by decide) (by decide)
  ⟨h.1, h.2.2.2.1⟩

end Archive

namespace Archive

/- ------------------------------------------------------------------ -/
/- Claim C10: limit parsing and embedding                              -/
/- ------------------------------------------------------------------ -/

/-- C10: with a non-empty domain, any limit string whose stripped form
parses as an integer — zero and negative values included — passes
validation (the run never produces a validation error), and the parsed
value is embedded unchecked into the archive-index query URL, which
contains the fragment `&limit=` followed by the rendered value; only a
limit string that fails to parse ends the run in the validation
`Status: Error`. -/
theorem C10_limit_embedding (env : RunEnv) (sched : List Evt) (out : RunOutput)
    (hdom : pyStrip env.domainText ≠ "")
    (hout : fetchAndCheck env sched = some out) :
    (∀ k : Int, pyParseInt (pyStrip env.limitText) = some k →
      (∀ m, out.result ≠ RunResult.validationError m) ∧
      out.queried = some (buildTargetUrl (pyStrip env.domainText) k) ∧
      ∃ a b, (buildTargetUrl (pyStrip env.domainText) k).data
        = a ++ ("&limit=" ++ toString k).data ++ b) ∧
    (pyParseInt (pyStrip env.limitText) = none →
      out.result = RunResult.validationError limitErrMsg ∧
      statusOf out = some "Status: Error") := by
  rw [fetchAndCheck, if_neg hdom] at hout
  constructor
  · intro k hk
    simp only [hk] at hout
    refine ⟨?_, ?_, ?_⟩
    · intro m
      cases hfet : env.fetch with
      | exn msg =>
        simp only [hfet] at hout
        injection hout with h
        subst h
        intro hbad
        cases hbad
      | ok lines =>
        simp only [hfet] at hout
        by_cases hlines : lines = []
        · rw [if_pos hlines] at hout
          injection hout with h
          subst h
          intro hbad
          cases hbad
        · rw [if_neg hlines] at hout
          cases hre : runEvents (initPool (List.map
              (fun u => Target.mk u (env.respond u)) (filterUrls lines)) env.threadCount)
              sched with
          | none =>
            rw [hre] at hout
            simp at hout
          | some s =>
            rw [hre] at hout
            have hout2 : (if s.taskDone = (List.map (fun u => Target.mk u (env.respond u))
                  (filterUrls lines)).length then
                some (RunOutput.mk (some (buildTargetUrl (pyStrip env.domainText) k))
                  env.threadCount (RunResult.finished s.stopped (renderReport s.results)))
              else
                some (RunOutput.mk (some (buildTargetUrl (pyStrip env.domainText) k))
                  env.threadCount (RunResult.blockedAtJoin s))) = some out := hout
            by_cases hjoin : s.taskDone = (List.map (fun u => Target.mk u (env.respond u))
                (filterUrls lines)).length
            · rw [if_pos hjoin] at hout2
              injection hout2 with h
              subst h
              intro hbad
              cases hbad
            · rw [if_neg hjoin] at hout2
              injection hout2 with h
              subst h
              intro hbad
              cases hbad
    · cases hfet : env.fetch with
      | exn msg =>
        simp only [hfet] at hout
        injection hout with h
        subst h
        rfl
      | ok lines =>
        simp only [hfet] at hout
        by_cases hlines : lines = []
        · rw [if_pos hlines] at hout
          injection hout with h
          subst h
          rfl
        · rw [if_neg hlines] at hout
          cases hre : runEvents (initPool (List.map
              (fun u => Target.mk u (env.respond u)) (filterUrls lines)) env.threadCount)
              sched with
          | none =>
            rw [hre] at hout
            simp at hout
          | some s =>
            rw [hre] at hout
            have hout2 : (if s.taskDone = (List.map (fun u => Target.mk u (env.respond u))
                  (filterUrls lines)).length then
                some (RunOutput.mk (some (buildTargetUrl (pyStrip env.domainText) k))
                  env.threadCount (RunResult.finished s.stopped (renderReport s.results)))
              else
                some (RunOutput.mk (some (buildTargetUrl (pyStrip env.domainText) k))
                  env.threadCount (RunResult.blockedAtJoin s))) = some out := hout
            by_cases hjoin : s.taskDone = (List.map (fun u => Target.mk u (env.respond u))
                (filterUrls lines)).length
            · rw [if_pos hjoin] at hout2
              injection hout2 with h
              subst h
              rfl
            · rw [if_neg hjoin] at hout2
              injection hout2 with h
              subst h
              rfl
    · refine ⟨("http://web.archive.org/cdx/search/cdx?url=").data
        ++ (pyQuote (pyStrip env.domainText)).data ++ ("&matchType=domain").data,
        ("&fl=original&collapse=urlkey").data, ?_⟩
      rw [buildTargetUrl]
      have hsplit : ("&matchType=domain&limit=").data
          = ("&matchType=domain").data ++ ("&limit=").data := by decide
      simp only [String.data_append, hsplit, List.append_assoc]
      simp [List.cons_append]
  · intro hk
    simp only [hk] at hout
    injection hout with h
    subst h
    exact ⟨rfl, rfl⟩

/-- C10 witness: the negative limit string ` -3 ` parses, passes
validation, and is embedded literally in the query URL. -/
theorem C10_limit_embedding_witness :
    RunOutput.queried ⟨some (buildTargetUrl "example.com" (-3)), 0, .emptyListError⟩
      = some (buildTargetUrl "example.com" (-3)) :=
  ((C10_limit_embedding ⟨"example.com", " -3 ", 5, .ok [], fun _ => .ok 200 0⟩ [] _
      (by decide) (by decide)).1 (-3) (by decide)).2.1

end Archive
